import Mathlib

/-!
Verification of the MoodTra backend chat pipeline (`AI/pipeline.py`,
`api/routers/chat.py`) against its natural-language specification.

Texts are shallowly embedded as `List Char`.  Pure Python string
operations are translated function-by-function; the external
collaborators (the generative-language service, the emotion classifier,
the database session) are passed in as explicit oracle parameters, so
each theorem quantifies over their behavior.
-/

/-- The apostrophe character (code point 39), used to build string
constants that contain apostrophes. -/
def apoC : Char := Char.ofNat 39

/-- One-character string holding an apostrophe. -/
def apoS : String := String.mk [apoC]

/-- Attach a character to the head of the first group of a grouping,
starting a new group when none exists.  Helper for `splitBy`. -/
def consHead (c : Char) : List (List Char) → List (List Char)
  | [] => [[c]]
  | w :: ws => (c :: w) :: ws

/-- Split a character list at every separator position recognized by `p`,
keeping empty pieces (the semantics of Python `str.split(sep)`). -/
def splitBy (p : Char → Bool) : List Char → List (List Char)
  | [] => [[]]
  | c :: rest => if p c then [] :: splitBy p rest else consHead c (splitBy p rest)

/-- Python `str.strip()`: drop whitespace from both ends. -/
def stripL (t : List Char) : List Char :=
  (((t.dropWhile Char.isWhitespace).reverse).dropWhile Char.isWhitespace).reverse

/-- Python `sep.join(pieces)`. -/
def joinSep (sep : List Char) : List (List Char) → List Char
  | [] => []
  | [w] => w
  | w :: ws => w ++ sep ++ joinSep sep ws

/-- Python `" ".join(text.split()).strip()` from `normalize_text`:
collapse whitespace runs to single spaces and trim the ends. -/
def collapseWS (t : List Char) : List Char :=
  stripL (joinSep [' '] ((splitBy Char.isWhitespace t).filter (fun w => w ≠ [])))

/-- Python `str.lower()` (ASCII model). -/
def lowerL (t : List Char) : List Char := t.map Char.toLower

/-- Python `string.punctuation`. -/
def punctChars : List Char :=
  ("!\"#$%&" ++ apoS ++ "()*+,-./:;<=>?@[\\]^_`\x7b|\x7d~").toList

/-- Membership in `string.punctuation`. -/
def isPunct (c : Char) : Bool := punctChars.contains c

/-- Python `t.translate(str.maketrans("", "", string.punctuation))`:
delete every punctuation character. -/
def stripPunctL (t : List Char) : List Char := t.filter (fun c => !isPunct c)

/-- The effective replacement table of `contractions.fix` for the texts
this pipeline feeds it.  `normalize_text` deletes punctuation (hence all
apostrophes) before calling `contractions.fix`, so only the library's
apostrophe-free keys (its slang additions) can ever match; this table
lists those, with the library's verbatim replacement values (note the
capital `I`, which the library inserts as-is). -/
def contractionsList : List (List Char × List Char) :=
  [("coulda".toList, "could have".toList),
   ("cuz".toList, "because".toList),
   ("finna".toList, "fixing to".toList),
   ("gimme".toList, "give me".toList),
   ("gonna".toList, "going to".toList),
   ("gotta".toList, "got to".toList),
   ("hafta".toList, "have to".toList),
   ("howdy".toList, "how do you do".toList),
   ("ima".toList, "I am going to".toList),
   ("imma".toList, "I am going to".toList),
   ("innit".toList, "is it not".toList),
   ("shoulda".toList, "should have".toList),
   ("wanna".toList, "want to".toList),
   ("woulda".toList, "would have".toList),
   ("yessir".toList, "yes sir".toList)]

/-- First value bound to a key in an association list. -/
def findVal (m : List (List Char × List Char)) (k : List Char) : Option (List Char) :=
  match m with
  | [] => none
  | kv :: rest => if kv.1 == k then some kv.2 else findVal rest k

/-- Replace one word by its contraction expansion when the table knows
it (matching is case-insensitive, the replacement is verbatim). -/
def replWord (w : List Char) : List Char :=
  match findVal contractionsList (lowerL w) with
  | some v => v
  | none => w

/-- `contractions.fix` on the space-separated, punctuation-free text
`normalize_text` hands it: replace each space-delimited word found in
the table. -/
def fixContractions (t : List Char) : List Char :=
  joinSep [' '] ((splitBy (fun c => c == ' ') t).map replWord)

/-- `MindPal_Pipeline.normalize_text`: collapse whitespace, lower-case,
delete punctuation, then expand contractions — in that order. -/
def normalize_text (t : List Char) : List Char :=
  fixContractions (stripPunctL (lowerL (collapseWS t)))

/-- Python regex `\w`: a word character (alphanumeric or underscore,
ASCII model). -/
def isWordChar (c : Char) : Bool := c.isAlphanum || c == '_'

/-- Word-character-ness of the character at index `i`, with positions
outside the text counting as non-word. -/
def charAtWord (t : List Char) (i : Nat) : Bool :=
  match t.get? i with
  | some c => isWordChar c
  | none => false

/-- Regex `\b` at position `i` of `t`: exactly one of the two adjacent
positions holds a word character. -/
def boundaryAt (t : List Char) (i : Nat) : Bool :=
  (match i with
   | 0 => false
   | j + 1 => charAtWord t j) != charAtWord t i

/-- The length-`len` slice of `t` starting at index `i` (shorter when it
runs off the end). -/
def sliceAt (t : List Char) (i len : Nat) : List Char := (t.drop i).take len

/-- Case-sensitive match of the pattern `\b<k>\b` at position `i` of
`t` (the `re.search` call of `detect_and_map_slang`, which runs the
lower-cased key against the lower-cased text). -/
def matchAtCS (t k : List Char) (i : Nat) : Bool :=
  sliceAt t i k.length == k && boundaryAt t i && boundaryAt t (i + k.length)

/-- Case-insensitive match of `\b<k>\b` at position `i` of `t` (the
`re.sub(..., flags=re.IGNORECASE)` call). -/
def matchAtCI (t k : List Char) (i : Nat) : Bool :=
  lowerL (sliceAt t i k.length) == lowerL k && boundaryAt t i && boundaryAt t (i + k.length)

/-- All positions of `t` where the whole-word pattern `\b<k>\b` matches
case-insensitively. -/
def matchPositionsCI (t k : List Char) : List Nat :=
  (List.range (t.length + 1)).filter (matchAtCI t k)

/-- `re.search(r"\b" + re.escape(k) + r"\b", t)` as a Boolean
(case-sensitive, as in the detection step of `detect_and_map_slang`). -/
def hasWholeWordCS (k t : List Char) : Bool :=
  (List.range (t.length + 1)).any (matchAtCS t k)

/-- Greedy left-to-right selection of non-overlapping match positions,
each selected match advancing the scan cursor by the pattern length —
the occurrence set `re.sub` rewrites. -/
def pickDisjoint (klen : Nat) : List Nat → Nat → List Nat
  | [], _ => []
  | p :: ps, cursor =>
    if p < cursor then pickDisjoint klen ps cursor
    else p :: pickDisjoint klen ps (p + klen)

/-- Rebuild the text, substituting `rep` for the length-`klen` span at
each selected position (positions ascending and disjoint). -/
def rebuild (t rep : List Char) (klen : Nat) : List Nat → Nat → List Char
  | [], cursor => t.drop cursor
  | p :: ps, cursor => (t.drop cursor).take (p - cursor) ++ rep ++ rebuild t rep klen ps (p + klen)

/-- `re.sub(r"\b" + re.escape(k) + r"\b", rep, t, flags=re.IGNORECASE)`:
replace every whole-word, case-insensitive occurrence of `k` in `t` by
`rep`, scanning left to right. -/
def subWholeWordCI (k rep t : List Char) : List Char :=
  rebuild t rep k.length (pickDisjoint k.length (matchPositionsCI t k) 0) 0

/-- `MindPal_Pipeline.detect_and_map_slang`: iterate over the slang map
in insertion order; for each key that occurs whole-word in the
lower-cased current text, rewrite every whole-word occurrence in the
current text (case-insensitively) as `"<token> (<meaning>)"`.  An empty
map leaves the text untouched (the `if self.SLANG_MAP else {}` guard). -/
def detect_and_map_slang (slangMap : List (List Char × List Char)) (text : List Char) : List Char :=
  slangMap.foldl (fun t kv =>
    if hasWholeWordCS kv.1 (lowerL t) then
      subWholeWordCI kv.1 (kv.1 ++ (" (").toList ++ kv.2 ++ (")").toList) t
    else t) text

/-- A row of the slang dataset: the optional `Slang` field and the
`Description` field. -/
structure SlangRow where
  slang : Option (List Char)
  desc : List Char

/-- Insert into a Python dict modelled as an insertion-ordered
association list: an existing key is updated in place, a new key is
appended. -/
def dictInsert (m : List (List Char × List Char)) (k v : List Char) : List (List Char × List Char) :=
  match m with
  | [] => [(k, v)]
  | kv :: rest => if kv.1 == k then (k, v) :: rest else kv :: dictInsert rest k v

/-- `MindPal_Pipeline.load_slang_dataset`: on a successful dataset load,
build the token→meaning dict from rows with a truthy `Slang` field
(keys lower-cased); return `none` when the load raises or the dict
comes out empty. -/
def load_slang_dataset (raw : Except (List Char) (List SlangRow)) : Option (List (List Char × List Char)) :=
  match raw with
  | .error _ => none
  | .ok rows =>
    let m := rows.foldl (fun m row =>
      match row.slang with
      | none => m
      | some k => if k = [] then m else dictInsert m (lowerL k) row.desc) []
    if m = [] then none else some m

/-- `self.SLANG_MAP = self.load_slang_dataset() or {}` from
`MindPal_Pipeline.__init__`. -/
def slangMapInit (raw : Except (List Char) (List SlangRow)) : List (List Char × List Char) :=
  (load_slang_dataset raw).getD []

/-- A stored chat message as the context builder sees it: role
(`"child"` or `"assistant"`) and text. -/
structure Msg where
  role : List Char
  text : List Char
deriving DecidableEq

/-- The `"child"` role constant. -/
def childRole : List Char := ("child").toList

/-- The `"assistant"` role constant. -/
def assistantRole : List Char := ("assistant").toList

/-- The per-message guard of `chat_endpoint`: strip the body, and when
it exceeds 800 characters keep the first 800 and append the `" ..."`
truncation marker. -/
def truncMsg (m : List Char) : List Char :=
  let s := stripL m
  if 800 < s.length then s.take 800 ++ (" ...").toList else s

/-- One `f"{role}: {safe_msg}"` line of the history context. -/
def historyLine (m : Msg) : List Char := m.role ++ (": ").toList ++ truncMsg m.text

/-- `ORDER BY message_ts DESC LIMIT n` followed by `list(reversed(...))`
on a chronologically ordered store: the most recent `n` messages, in
chronological order. -/
def fetchRecent (store : List Msg) (n : Nat) : List Msg :=
  (store.reverse.take n).reverse

/-- The newline character list. -/
def nlC : List Char := [Char.ofNat 10]

/-- The history-context block of `chat_endpoint`: the 20 most recent
messages of the session, one `"role: text"` line each, joined by
newlines.  `store` is the session's messages in chronological order. -/
def buildHistoryContext (store : List Msg) : List Char :=
  joinSep nlC ((fetchRecent store 20).map historyLine)

/-- The child-only context block of `chat_endpoint`: the 3 most recent
`child` messages, truncated the same way, with no role prefix. -/
def buildChildContext (store : List Msg) : List Char :=
  joinSep nlC
    ((fetchRecent (store.filter (fun m => m.role == childRole)) 3).map (fun m => truncMsg m.text))

/-- The persona/policy preamble of the prompt in
`MindPal_Pipeline.chat` (the fixed body of the f-string; the
indentation of the Python triple-quoted literal is elided). -/
def promptPreamble : List Char :=
  ("You are MindPal, a supportive wellbeing chatbot for 13-15 year-old Australian teens.\n"
    ++ "Your responses should be:\n"
    ++ "- Warm, understanding, and age-appropriate\n"
    ++ "- Validate their feelings without being condescending\n"
    ++ "- Use language that feels natural to teens\n"
    ++ "- Acknowledge and reflect their feeling(s)\n"
    ++ "- Keep replies within 1-3 sentences and sound like a natural conversation\n"
    ++ "- Encourage them to talk more, ask follow up questions and let them express their feelings\n"
    ++ "- Encourage real-life support systems and resources\n"
    ++ "- When appropriate and you have enough information, gently encourage the teen to talk with a trusted adult or friend\n"
    ++ "- When appropriate, suggest the most suitable coping strategy only from the list of coping strategies provided\n"
    ++ "- When providing coping strategy, output the strategy name and description with the format (Strategy: ,Description:)\n"
    ++ "- Ask for user" ++ apoS ++ "s comfirmation before providing the instruction with the format (Strategy: ,Instruction: , ask for user" ++ apoS ++ "s feedback)\n"
    ++ "- When asking for the user feedback, you can say similar things like \"Feel free to share how you feel after doing the strategy\"\n"
    ++ "- The strategy name should be the exact name of the strategy from the list of coping strategies provided\n"
    ++ "- Avoid shaming or lecturing\n"
    ++ "- Use emojis to express emotionss\n"
    ++ "- Do NOT encourage any dangerous behaviour or provide inappropriate information\n"
    ++ "- Do NOT give medical or clinical advice or replace professional help\n"
    ++ "- Do NOT be overly positive or negative, be neutral and honest when necessary\n"
    ++ "- Do NOT let the user give out any personal information\n"
    ++ "- If user asks questions that are unrelated to your purpose, politely decline to answer and redirect the conversation back\n").toList

/-- The interpolated tail of the prompt f-string of
`MindPal_Pipeline.chat`. -/
def mkPrompt (emo hist msg strats : List Char) : List Char :=
  promptPreamble
    ++ ("\nCurrent emotion(s) detected: ").toList ++ emo
    ++ ("\nConversation context: ").toList ++ hist
    ++ ("\nChild" ++ apoS ++ "s current message: ").toList ++ msg
    ++ ("\nList of coping strategies: ").toList ++ strats
    ++ ("\n\nAlways rethink and double check your answer before responding.\n"
        ++ "When you completely understand you can start the session.").toList

/-- The fixed fallback reply of `MindPal_Pipeline.chat`. -/
def fallbackReply : List Char :=
  ("I" ++ apoS ++ "m sorry, I" ++ apoS
    ++ "m having trouble generating a response. Please try again later.").toList

/-- The warning line `chat` prints when the generation call raises. -/
def genWarn (e : List Char) : List Char := ("[WARN] Failed to generate response: ").toList ++ e

/-- `MindPal_Pipeline.chat`: normalize the message, resolve slang,
compose the prompt and invoke the generation service `gen` once.  The
result pairs the returned reply with the log lines emitted: a raised
generation error is caught, logged, and replaced by `fallbackReply`; a
successful response's `.text` is returned verbatim. -/
def mindpalChat (slangMap : List (List Char × List Char))
    (gen : List Char → Except (List Char) (List Char))
    (text emo hist strats : List Char) : List Char × List (List Char) :=
  let t := normalize_text text
  let pt := detect_and_map_slang slangMap t
  let prompt := mkPrompt emo hist pt strats
  match gen prompt with
  | .error e => (fallbackReply, [genWarn e])
  | .ok r => (r, [])

/-- The configuration `MindPal_Pipeline.__init__` establishes when it
succeeds. -/
structure PipelineCfg where
  apiKey : List Char
  model : List Char
deriving DecidableEq

/-- The error message of the `RuntimeError` raised by
`MindPal_Pipeline.__init__` when the credential is missing. -/
def missingKeyMsg : List Char := ("Missing GOOGLE_API_KEY in environment variables.").toList

/-- `MindPal_Pipeline.__init__` up to its configuration check:
`os.environ.get("GOOGLE_API_KEY")` yields `envKey`; an absent or empty
value (both falsy) raises, otherwise the client is configured with the
key and the fixed model name. -/
def mindpal_init (envKey : Option (List Char)) : Except (List Char) PipelineCfg :=
  match envKey with
  | none => .error missingKeyMsg
  | some k => if k = [] then .error missingKeyMsg else .ok ⟨k, ("gemini-2.5-flash").toList⟩

/-- A coping-strategy row as serialized by `chat_endpoint`. -/
structure StratRec where
  name : List Char
  desc : List Char
  instr : List Char
  dur : List Char
  req : List Char

/-- One numbered line of the strategies string built by
`chat_endpoint`. -/
def strategyLine (i : Nat) (s : StratRec) : List Char :=
  (Nat.repr (i + 1)).toList ++ (". Name: ").toList ++ s.name
    ++ (", Description: ").toList ++ s.desc
    ++ (", Instruction: ").toList ++ s.instr
    ++ (", Duration: ").toList ++ s.dur
    ++ (", Requirements: ").toList ++ s.req ++ (".").toList

/-- The `strategies_string` of `chat_endpoint`: empty when no strategy
matched, otherwise the enumerated lines joined by newlines. -/
def serializeStrategies (strats : List StratRec) : List Char :=
  match strats with
  | [] => []
  | _ => joinSep nlC (((List.range strats.length).zip strats).map (fun p => strategyLine p.1 p.2))

/-- The `detected_emotion` value interpolated into the prompt: the
classifier's ranked label list rendered as text (model of the f-string
rendering of the Python list object). -/
def serializeRanked (ranked : List (List Char)) : List Char :=
  joinSep ((", ").toList) ranked

/-- The SQLAlchemy session restricted to one chat session's messages:
`committed` rows are durable, `pending` rows have been `add`ed/`flush`ed
inside the open transaction, `commits` counts executed commits.  Both
lists are in chronological order. -/
structure DBState where
  committed : List Msg
  pending : List Msg
  commits : Nat

/-- Rows a `SELECT` inside the open transaction sees: committed plus
flushed-pending rows. -/
def dbVisible (db : DBState) : List Msg := db.committed ++ db.pending

/-- `db.commit()`: make the pending rows durable, in one transaction. -/
def dbCommit (db : DBState) : DBState := ⟨db.committed ++ db.pending, [], db.commits + 1⟩

/-- `db.rollback()`: discard the pending rows. -/
def dbRollback (db : DBState) : DBState := ⟨db.committed, [], db.commits⟩

/-- The external collaborators of `chat_endpoint`: the loaded slang map,
the emotion classifier (which may raise, modelled as an exception
`(type-name, message)`, or return the ranked label list), the
strategy-by-emotion database lookup, and the generation service. -/
structure EndpointDeps where
  slangMap : List (List Char × List Char)
  classify : List Char → Except (List Char × List Char) (List (List Char))
  strategiesFor : List Char → List StratRec
  gen : List Char → Except (List Char) (List Char)

/-- The detail string of the 500 response of `chat_endpoint`:
`f"Internal error: {type(e).__name__}: {e}"`. -/
def internalErrDetail (n m : List Char) : List Char :=
  ("Internal error: ").toList ++ n ++ (": ").toList ++ m

/-- The detail string of the 400 response for an empty message. -/
def emptyMsgDetail : List Char := ("Message cannot be empty.").toList

/-- `chat_endpoint` of `api/routers/chat.py`: reject empty messages with
a 400; otherwise add the child's message to the transaction, build the
history and child-only context blocks (which see the flushed row),
classify, look up strategies for the top label, generate the reply, add
the assistant row and commit.  Any exception inside the `try` block
(modelled at the classifier call and at the `emotion[0]` indexing)
rolls the transaction back and yields a 500 whose detail embeds the
exception's type name and message. -/
def chat_endpoint (deps : EndpointDeps) (payload : List Char) (db0 : DBState) :
    Except (Nat × List Char) (List Char) × DBState :=
  let mt := stripL payload
  if mt = [] then (.error (400, emptyMsgDetail), db0)
  else
    let db1 : DBState := { db0 with pending := db0.pending ++ [⟨childRole, mt⟩] }
    let hist := dbVisible db1
    let histCtx := buildHistoryContext hist
    let childCtx := buildChildContext hist
    match deps.classify childCtx with
    | .error e => (.error (500, internalErrDetail e.1 e.2), dbRollback db1)
    | .ok ranked =>
      match ranked with
      | [] =>
        (.error (500, internalErrDetail (("IndexError").toList) (("list index out of range").toList)),
          dbRollback db1)
      | top :: _ =>
        let strats := deps.strategiesFor top
        let reply := (mindpalChat deps.slangMap deps.gen mt (serializeRanked ranked) histCtx
          (serializeStrategies strats)).1
        let db2 : DBState := { db1 with pending := db1.pending ++ [⟨assistantRole, reply⟩] }
        (.ok reply, dbCommit db2)

/-- Start positions of exact substring occurrences of `d` in `t`. -/
def occStartsExact (d t : List Char) : List Nat :=
  (List.range (t.length + 1)).filter (fun i => sliceAt t i d.length == d)

/-- Whether `d` occurs as a substring of `t`. -/
def hasSub (d t : List Char) : Bool := !(occStartsExact d t).isEmpty

/-- The conventional reasoning/thinking close delimiter. -/
def thinkDelim : List Char := ("</think>").toList

/-- Modelled from the spec: the additional parsing rule of §4.5 — "if
the raw model output contains a reasoning/thinking delimiter, only the
content after the last occurrence of that delimiter is returned as the
reply".  This function is the spec's description, to be compared with
the code's behavior; no such parsing exists in `src`. -/
def specAfterLastDelim (d t : List Char) : List Char :=
  match (occStartsExact d t).getLast? with
  | some i => t.drop (i + d.length)
  | none => t

/-- C1: for every input message, emotion, context and strategy list, if
the generation-service call raises any exception, `chat` does not raise
and returns exactly the fixed fallback string, and the failure is
logged. -/
theorem chat_generation_failure_fallback
    (slangMap : List (List Char × List Char))
    (gen : List Char → Except (List Char) (List Char))
    (text emo hist strats e : List Char)
    (h : ∀ p, gen p = Except.error e) :
    mindpalChat slangMap gen text emo hist strats = (fallbackReply, [genWarn e]) := by
  simp [mindpalChat, h]

theorem chat_generation_failure_fallback_witness :
    mindpalChat [] (fun _ => Except.error (("boom").toList)) (("hi").toList) [] [] []
      = (fallbackReply, [genWarn (("boom").toList)]) :=
  chat_generation_failure_fallback [] _ _ _ _ _ _ (fun _ => rfl)

/-- C8: if the slang lexicon failed to load (the map defaults to empty),
`detect_and_map_slang` returns every input text unchanged; the same
holds for any empty slang mapping. -/
theorem detect_slang_noop_on_load_failure :
    (∀ e text, detect_and_map_slang (slangMapInit (Except.error e)) text = text)
    ∧ (∀ text, detect_and_map_slang [] text = text) :=
  ⟨fun _ _ => rfl, fun _ => rfl⟩

/-- C9: pipeline construction fails with the missing-credential error
whenever `GOOGLE_API_KEY` is absent or empty, and any successfully
constructed configuration carries the non-empty key from the
environment — there is no partially-configured success state. -/
theorem init_refuses_missing_credential (envKey : Option (List Char)) :
    ((envKey = none ∨ envKey = some []) → mindpal_init envKey = Except.error missingKeyMsg)
    ∧ (∀ cfg, mindpal_init envKey = Except.ok cfg → envKey = some cfg.apiKey ∧ cfg.apiKey ≠ []) := by
  constructor
  · rintro (rfl | rfl) <;> rfl
  · intro cfg h
    match envKey with
    | none => exact absurd h (by simp [mindpal_init])
    | some k =>
      by_cases hk : k = []
      · rw [mindpal_init, if_pos hk] at h
        exact absurd h (by simp)
      · rw [mindpal_init, if_neg hk] at h
        cases h
        exact ⟨rfl, hk⟩

theorem init_refuses_missing_credential_witness :
    mindpal_init (some []) = Except.error missingKeyMsg :=
  (init_refuses_missing_credential (some [])).1 (Or.inr rfl)

/-- C7 counterexample: a mocked generation returning the fixed string
`" hi "` makes `chat` return `" hi "` itself, which differs from its
trimmed form — the reply is not trimmed before being returned. -/
theorem chat_reply_not_trimmed_cex :
    (mindpalChat [] (fun _ => Except.ok ((" hi ").toList)) (("x").toList) [] [] []).1
      = (" hi ").toList
    ∧ (mindpalChat [] (fun _ => Except.ok ((" hi ").toList)) (("x").toList) [] [] []).1
      ≠ stripL ((" hi ").toList) :=
  ⟨rfl, by decide⟩

/-- C7 amended: on a successful generation call, `chat` returns the
service's reply text verbatim — unchanged, but also untrimmed. -/
theorem chat_returns_reply_verbatim
    (slangMap : List (List Char × List Char))
    (gen : List Char → Except (List Char) (List Char))
    (text emo hist strats r : List Char)
    (h : ∀ p, gen p = Except.ok r) :
    (mindpalChat slangMap gen text emo hist strats).1 = r := by
  simp [mindpalChat, h]

theorem chat_returns_reply_verbatim_witness :
    (mindpalChat [] (fun _ => Except.ok (("ok then").toList)) (("x").toList) [] [] []).1
      = ("ok then").toList :=
  chat_returns_reply_verbatim [] _ _ _ _ _ _ (fun _ => rfl)

/-- C6 counterexample: a raw model output containing the reasoning
delimiter is returned whole by `chat`, not cut to the content after the
last delimiter occurrence. -/
theorem chat_no_think_parsing_cex :
    hasSub thinkDelim (("plan</think>ok").toList) = true
    ∧ (mindpalChat [] (fun _ => Except.ok (("plan</think>ok").toList)) (("x").toList) [] [] []).1
      = ("plan</think>ok").toList
    ∧ (mindpalChat [] (fun _ => Except.ok (("plan</think>ok").toList)) (("x").toList) [] [] []).1
      ≠ specAfterLastDelim thinkDelim (("plan</think>ok").toList) :=
  ⟨by decide, rfl, by decide⟩

/-- The optional last element of a list is an element of it. -/
theorem mem_of_getLast?_some {α : Type} : ∀ (l : List α) {a : α}, l.getLast? = some a → a ∈ l
  | [], _, h => by simp [List.getLast?] at h
  | [b], a, h => by
      simp [List.getLast?] at h
      simp [h]
  | b :: c :: t, a, h => by
      rw [List.getLast?_cons_cons] at h
      exact List.mem_cons_of_mem _ (mem_of_getLast?_some (c :: t) h)

/-- C6 amended: `chat` performs no reasoning-delimiter parsing — for a
successful generation whose raw output contains the delimiter, the
reply is the raw output itself, and it is never the (strictly shorter)
content after the last delimiter occurrence. -/
theorem chat_think_delimiter_not_parsed
    (slangMap : List (List Char × List Char))
    (gen : List Char → Except (List Char) (List Char))
    (text emo hist strats r : List Char)
    (hg : ∀ p, gen p = Except.ok r)
    (hr : hasSub thinkDelim r = true) :
    (mindpalChat slangMap gen text emo hist strats).1 = r
    ∧ (mindpalChat slangMap gen text emo hist strats).1 ≠ specAfterLastDelim thinkDelim r := by
  have h1 : (mindpalChat slangMap gen text emo hist strats).1 = r := by
    simp [mindpalChat, hg]
  refine ⟨h1, ?_⟩
  rw [h1]
  have hne : occStartsExact thinkDelim r ≠ [] := by
    intro h0
    rw [hasSub, h0] at hr
    simp at hr
  cases hlast : (occStartsExact thinkDelim r).getLast? with
  | none =>
    exact absurd (List.getLast?_eq_none_iff.mp hlast) hne
  | some i =>
    have hi : i ∈ occStartsExact thinkDelim r := mem_of_getLast?_some _ hlast
    have hocc := (List.mem_filter.mp hi).2
    have hslice : sliceAt r i thinkDelim.length = thinkDelim := by
      exact eq_of_beq (by exact hocc)
    have hd8 : thinkDelim.length = 8 := rfl
    have hlen : 8 ≤ r.length - i := by
      have hl := congrArg List.length hslice
      rw [hd8] at hl
      simp only [sliceAt, List.length_take, List.length_drop] at hl
      omega
    intro heq
    rw [specAfterLastDelim, hlast, hd8] at heq
    have hlq := congrArg List.length heq
    simp only [List.length_drop] at hlq
    omega

theorem chat_think_delimiter_not_parsed_witness :
    (mindpalChat [] (fun _ => Except.ok (("a</think>b").toList)) (("x").toList) [] [] []).1
      = ("a</think>b").toList :=
  (chat_think_delimiter_not_parsed [] _ _ _ _ _ _ (fun _ => rfl) (by decide)).1

/-- Characters of a joined list come from the separator or a piece. -/
theorem mem_joinSep {sep : List Char} {c : Char} :
    ∀ (ws : List (List Char)), c ∈ joinSep sep ws → c ∈ sep ∨ ∃ w ∈ ws, c ∈ w
  | [], h => by simp [joinSep] at h
  | [w], h => by
      rw [joinSep] at h
      exact Or.inr ⟨w, by simp, h⟩
  | w :: w' :: ws, h => by
      have hj : joinSep sep (w :: w' :: ws) = w ++ sep ++ joinSep sep (w' :: ws) := rfl
      rw [hj] at h
      rcases List.mem_append.mp h with h' | h'
      · rcases List.mem_append.mp h' with h'' | h''
        · exact Or.inr ⟨w, by simp, h''⟩
        · exact Or.inl h''
      · rcases mem_joinSep (w' :: ws) h' with h'' | ⟨u, hu, hc⟩
        · exact Or.inl h''
        · exact Or.inr ⟨u, List.mem_cons_of_mem _ hu, hc⟩

/-- A value returned by the association-list lookup is a value of the
list. -/
theorem findVal_mem : ∀ (m : List (List Char × List Char)) (k v : List Char),
    findVal m k = some v → ∃ kv ∈ m, kv.2 = v
  | [], _, _, h => by simp [findVal] at h
  | kv :: rest, k, v, h => by
      rw [findVal] at h
      by_cases he : kv.1 == k
      · rw [if_pos he] at h
        cases h
        exact ⟨kv, by simp, rfl⟩
      · rw [if_neg he] at h
        rcases findVal_mem rest k v h with ⟨kv', h1, h2⟩
        exact ⟨kv', List.mem_cons_of_mem _ h1, h2⟩

/-- Characters of the pieces of a split come from the split text. -/
theorem mem_of_mem_splitBy (p : Char → Bool) :
    ∀ (t w : List Char) (c : Char), w ∈ splitBy p t → c ∈ w → c ∈ t
  | [], w, c, hw, hc => by
      rw [splitBy] at hw
      simp at hw
      subst hw
      simp at hc
  | ch :: rest, w, c, hw, hc => by
      rw [splitBy] at hw
      by_cases hp : p ch
      · rw [if_pos hp] at hw
        rcases List.mem_cons.mp hw with rfl | hw'
        · simp at hc
        · exact List.mem_cons_of_mem _ (mem_of_mem_splitBy p rest w c hw' hc)
      · rw [if_neg hp] at hw
        cases hsp : splitBy p rest with
        | nil =>
          rw [hsp] at hw
          simp [consHead] at hw
          subst hw
          simp at hc
          simp [hc]
        | cons w0 ws =>
          rw [hsp] at hw
          simp only [consHead] at hw
          rcases List.mem_cons.mp hw with rfl | hw'
          · rcases List.mem_cons.mp hc with rfl | hc'
            · simp
            · have hw0 : w0 ∈ splitBy p rest := by rw [hsp]; simp
              exact List.mem_cons_of_mem _ (mem_of_mem_splitBy p rest w0 c hw0 hc')
          · have hwm : w ∈ splitBy p rest := by rw [hsp]; exact List.mem_cons_of_mem _ hw'
            exact List.mem_cons_of_mem _ (mem_of_mem_splitBy p rest w c hwm hc)

/-- Every replacement value of the contraction table is free of
punctuation characters. -/
theorem contractions_values_punct_free :
    contractionsList.all (fun kv => kv.2.all (fun c => !isPunct c)) = true := by decide

/-- The output of `normalize_text` never contains punctuation: deleting
punctuation from it is the identity. -/
theorem normalize_text_punct_free (s : List Char) :
    stripPunctL (normalize_text s) = normalize_text s := by
  rw [stripPunctL, List.filter_eq_self]
  intro c hc
  rw [normalize_text, fixContractions] at hc
  rcases mem_joinSep _ hc with hsep | ⟨w, hw, hcw⟩
  · simp at hsep
    subst hsep
    decide
  · rcases List.mem_map.mp hw with ⟨u, hu, rfl⟩
    rw [replWord] at hcw
    cases hfv : findVal contractionsList (lowerL u) with
    | some v =>
      rw [hfv] at hcw
      rcases findVal_mem _ _ _ hfv with ⟨kv, hkv, rfl⟩
      have hall := List.all_eq_true.mp contractions_values_punct_free kv hkv
      exact List.all_eq_true.mp hall c hcw
    | none =>
      rw [hfv] at hcw
      have := mem_of_mem_splitBy _ _ _ _ hu hcw
      exact (List.mem_filter.mp this).2

/-- C5 amended: `normalize_text` output is always punctuation-free, and
renormalizing is the identity whenever the normalized form is also a
fixed point of lower-casing, whitespace collapsing and contraction
expansion; in general a second pass can differ (whitespace artifacts or
capitals introduced by contraction expansion). -/
theorem normalize_text_conditionally_idempotent (s : List Char) :
    stripPunctL (normalize_text s) = normalize_text s
    ∧ (lowerL (normalize_text s) = normalize_text s →
       collapseWS (normalize_text s) = normalize_text s →
       fixContractions (normalize_text s) = normalize_text s →
       normalize_text (normalize_text s) = normalize_text s) := by
  refine ⟨normalize_text_punct_free s, fun h1 h2 h3 => ?_⟩
  show fixContractions (stripPunctL (lowerL (collapseWS (normalize_text s)))) = normalize_text s
  rw [h2, h1, normalize_text_punct_free s, h3]

theorem normalize_text_conditionally_idempotent_witness :
    normalize_text (normalize_text (("hello world").toList)) = normalize_text (("hello world").toList) :=
  (normalize_text_conditionally_idempotent (("hello world").toList)).2
    (by decide) (by decide) (by decide)

/-- C5 counterexample: normalization is not idempotent.  In
`normalize_text` punctuation is deleted after whitespace collapsing, so
`"a !! b"` normalizes to `"a  b"` (a double space left by the deleted
`"!!"` word), which a second normalization collapses to `"a b"`. -/
theorem normalize_text_not_idempotent_cex :
    normalize_text (("a !! b").toList) = ("a  b").toList
    ∧ normalize_text (normalize_text (("a !! b").toList))
      ≠ normalize_text (("a !! b").toList) := ⟨by decide, by decide⟩

/-- Taking `n` from the reverse and reversing again is dropping all but
the last `n`: the DESC/LIMIT/reverse fetch is the chronological
suffix. -/
theorem reverse_take_reverse_eq_drop {α : Type} :
    ∀ (l : List α) (n : Nat), ((l.reverse.take n).reverse : List α) = l.drop (l.length - n)
  | [], n => by simp
  | m :: l, n => by
      by_cases hn : n ≤ l.length
      · have h1 : (m :: l).reverse.take n = l.reverse.take n := by
          rw [List.reverse_cons]
          exact List.take_append_of_le_length (by simpa using hn)
        rw [h1, reverse_take_reverse_eq_drop l n]
        have h2 : (m :: l).length - n = (l.length - n) + 1 := by
          simp only [List.length_cons]
          omega
        rw [h2, List.drop_succ_cons]
      · have hlen : (m :: l).reverse.length ≤ n := by
          simp only [List.length_reverse, List.length_cons]
          omega
        rw [List.take_of_length_le hlen, List.reverse_reverse]
        have h2 : (m :: l).length - n = 0 := by
          simp only [List.length_cons]
          omega
        rw [h2, List.drop_zero]

/-- C4: the history context holds at most 20 messages — exactly the
chronological suffix of the stored conversation — rendered as one
`"role: text"` line per message joined by newlines, and no truncated
message body exceeds the 800-character cap plus the 4-character
truncation marker. -/
theorem history_context_bounded (store : List Msg) :
    fetchRecent store 20 = store.drop (store.length - 20)
    ∧ (fetchRecent store 20).length ≤ 20
    ∧ buildHistoryContext store = joinSep nlC ((store.drop (store.length - 20)).map historyLine)
    ∧ (∀ m ∈ store, (truncMsg m.text).length ≤ 804) := by
  have hd : fetchRecent store 20 = store.drop (store.length - 20) :=
    reverse_take_reverse_eq_drop store 20
  refine ⟨hd, ?_, ?_, ?_⟩
  · rw [fetchRecent]
    simp only [List.length_reverse, List.length_take]
    omega
  · rw [buildHistoryContext, hd]
  · intro m _
    rw [truncMsg]
    have h4 : ((" ...").toList).length = 4 := rfl
    by_cases hl : 800 < (stripL m.text).length
    · rw [if_pos hl]
      simp only [List.length_append, List.length_take]
      omega
    · rw [if_neg hl]
      omega

theorem history_context_bounded_witness :
    (fetchRecent [Msg.mk childRole (("a").toList)] 20).length ≤ 20
    ∧ (truncMsg (("a").toList)).length ≤ 804 :=
  ⟨(history_context_bounded [Msg.mk childRole (("a").toList)]).2.1,
   (history_context_bounded [Msg.mk childRole (("a").toList)]).2.2.2
     (Msg.mk childRole (("a").toList)) (by simp)⟩

/-- C10: `chat_endpoint` is transactional: a classifier failure after
the user's message has been added rolls the transaction back (the
committed store is unchanged and nothing stays pending), while a
successful run commits the child message and the assistant reply
together in exactly one commit. -/
theorem chat_endpoint_transactional :
    (∀ deps payload db0 n m,
       (∀ x : List Char, deps.classify x = Except.error (n, m)) →
       stripL payload ≠ [] →
       (chat_endpoint deps payload db0).2.committed = db0.committed
       ∧ (chat_endpoint deps payload db0).2.pending = []
       ∧ (chat_endpoint deps payload db0).2.commits = db0.commits)
    ∧ (∀ deps payload db0 top rest,
       (∀ x : List Char, deps.classify x = Except.ok (top :: rest)) →
       stripL payload ≠ [] → db0.pending = [] →
       ∃ reply, (chat_endpoint deps payload db0).1 = Except.ok reply
         ∧ (chat_endpoint deps payload db0).2.committed
             = db0.committed ++ [Msg.mk childRole (stripL payload), Msg.mk assistantRole reply]
         ∧ (chat_endpoint deps payload db0).2.pending = []
         ∧ (chat_endpoint deps payload db0).2.commits = db0.commits + 1) := by
  constructor
  · intro deps payload db0 n m hc hmt
    simp only [chat_endpoint, if_neg hmt, hc]
    simp [dbRollback]
  · intro deps payload db0 top rest hc hmt hp
    simp only [chat_endpoint, if_neg hmt, hc]
    refine ⟨_, rfl, ?_, ?_, ?_⟩ <;> simp [dbCommit, hp]

theorem chat_endpoint_transactional_witness :
    ∃ reply,
      (chat_endpoint
        ⟨[], fun _ => Except.ok [("joy").toList], fun _ => [], fun _ => Except.ok (("hey").toList)⟩
        (("hi").toList) ⟨[], [], 0⟩).1 = Except.ok reply
      ∧ (chat_endpoint
        ⟨[], fun _ => Except.ok [("joy").toList], fun _ => [], fun _ => Except.ok (("hey").toList)⟩
        (("hi").toList) ⟨[], [], 0⟩).2.committed
          = [] ++ [Msg.mk childRole (stripL (("hi").toList)), Msg.mk assistantRole reply]
      ∧ (chat_endpoint
        ⟨[], fun _ => Except.ok [("joy").toList], fun _ => [], fun _ => Except.ok (("hey").toList)⟩
        (("hi").toList) ⟨[], [], 0⟩).2.pending = []
      ∧ (chat_endpoint
        ⟨[], fun _ => Except.ok [("joy").toList], fun _ => [], fun _ => Except.ok (("hey").toList)⟩
        (("hi").toList) ⟨[], [], 0⟩).2.commits = 0 + 1 :=
  chat_endpoint_transactional.2 _ _ _ _ _ (fun _ => rfl) (by decide) rfl

/-- C2 amended: the end user receives the generated reply, or the
fallback sentence when the generation service fails (such failures
never surface), or an HTTP error — but the 500 error detail embeds the
underlying exception's type name and message, so non-generation
failures do surface the exception's text; the empty-message 400 detail
is fixed. -/
theorem chat_endpoint_user_visible :
    (∀ deps payload db0 e top rest,
       (∀ x : List Char, deps.classify x = Except.ok (top :: rest)) →
       (∀ p, deps.gen p = Except.error e) →
       stripL payload ≠ [] →
       (chat_endpoint deps payload db0).1 = Except.ok fallbackReply)
    ∧ (∀ deps payload db0 n m,
       (∀ x : List Char, deps.classify x = Except.error (n, m)) →
       stripL payload ≠ [] →
       (chat_endpoint deps payload db0).1 = Except.error (500, internalErrDetail n m))
    ∧ (∀ deps payload db0, stripL payload = [] →
       (chat_endpoint deps payload db0).1 = Except.error (400, emptyMsgDetail)) := by
  refine ⟨?_, ?_, ?_⟩
  · intro deps payload db0 e top rest hc hg hmt
    simp only [chat_endpoint, if_neg hmt, hc]
    simp [mindpalChat, hg]
  · intro deps payload db0 n m hc hmt
    simp only [chat_endpoint, if_neg hmt, hc]
  · intro deps payload db0 hmt
    simp only [chat_endpoint, if_pos hmt]

theorem chat_endpoint_user_visible_witness :
    (chat_endpoint
      ⟨[], fun _ => Except.ok [("joy").toList], fun _ => [], fun _ => Except.ok (("hey").toList)⟩
      ((" ").toList) ⟨[], [], 0⟩).1 = Except.error (400, emptyMsgDetail) :=
  chat_endpoint_user_visible.2.2 _ _ _ (by decide)

/-- C2 counterexample: when the classifier raises `ValueError("boom")`,
the endpoint's 500 response detail is
`"Internal error: ValueError: boom"` — the raw exception text reaches
the end user. -/
theorem endpoint_error_leaks_exception_text_cex :
    (chat_endpoint
      ⟨[], fun _ => Except.error ((("ValueError").toList, ("boom").toList)), fun _ => [],
        fun _ => Except.ok []⟩ (("hi").toList) ⟨[], [], 0⟩).1
      = Except.error (500, ("Internal error: ValueError: boom").toList)
    ∧ hasSub (("boom").toList) (("Internal error: ValueError: boom").toList) = true := by
  exact ⟨rfl, by decide⟩

/-- `boundaryAt` at a successor position compares the two adjacent
word-character flags. -/
theorem boundaryAt_succ (t : List Char) (j : Nat) :
    boundaryAt t (j + 1) = (charAtWord t j != charAtWord t (j + 1)) := rfl

/-- `boundaryAt` at position zero is the word-character flag of the
first character. -/
theorem boundaryAt_zero (t : List Char) :
    boundaryAt t 0 = (false != charAtWord t 0) := rfl

/-- `Char.ofNat` of a valid code point decodes back to that number. -/
theorem toNat_ofNat_valid (n : Nat) (h : n.isValidChar) : (Char.ofNat n).toNat = n := by
  rw [Char.ofNat, dif_pos h]
  rfl

/-- Lower-casing preserves word-character-ness: only uppercase letters
change, and they map to lowercase letters. -/
theorem isWordChar_toLower (c : Char) : isWordChar c.toLower = isWordChar c := by
  rw [Char.toLower]
  split
  · next hcond =>
    have hvalid : (c.toNat + 32).isValidChar := Or.inl (by omega)
    have hval : (Char.ofNat (c.toNat + 32)).toNat = c.toNat + 32 := toNat_ofNat_valid _ hvalid
    have h1 : isWordChar c = true := by
      rw [isWordChar, Char.isAlphanum, Char.isAlpha, Char.isUpper]
      have hll : (65 : UInt32) ≤ c.val := by
        rw [UInt32.le_def, BitVec.le_def]
        exact hcond.1
      have hrr : c.val ≤ (90 : UInt32) := by
        rw [UInt32.le_def, BitVec.le_def]
        exact hcond.2
      simp [hll, hrr]
    have h2 : isWordChar (Char.ofNat (c.toNat + 32)) = true := by
      rw [isWordChar, Char.isAlphanum, Char.isAlpha, Char.isLower]
      have hll : (97 : UInt32) ≤ (Char.ofNat (c.toNat + 32)).val := by
        rw [UInt32.le_def, BitVec.le_def]
        show 97 ≤ (Char.ofNat (c.toNat + 32)).toNat
        omega
      have hrr : (Char.ofNat (c.toNat + 32)).val ≤ (122 : UInt32) := by
        rw [UInt32.le_def, BitVec.le_def]
        show (Char.ofNat (c.toNat + 32)).toNat ≤ 122
        omega
      simp [hll, hrr]
    rw [h2, h1]
  · rfl

/-- Lower-casing the text does not change the word-character flag at
any index. -/
theorem charAtWord_lowerL (t : List Char) (j : Nat) :
    charAtWord (lowerL t) j = charAtWord t j := by
  rw [charAtWord, charAtWord, lowerL, List.get?_map]
  cases t.get? j with
  | none => rfl
  | some c => exact isWordChar_toLower c

/-- Lower-casing the text does not change any `\b` boundary. -/
theorem boundaryAt_lowerL (t : List Char) (i : Nat) :
    boundaryAt (lowerL t) i = boundaryAt t i := by
  cases i with
  | zero => rw [boundaryAt_zero, boundaryAt_zero, charAtWord_lowerL]
  | succ j => rw [boundaryAt_succ, boundaryAt_succ, charAtWord_lowerL, charAtWord_lowerL]

/-- Selecting from a single match position keeps it. -/
theorem pickDisjoint_singleton (klen p : Nat) : pickDisjoint klen [p] 0 = [p] := by
  simp [pickDisjoint]

/-- Rebuilding over a single position splices the replacement in. -/
theorem rebuild_singleton (t rep : List Char) (klen p : Nat) :
    rebuild t rep klen [p] 0 = t.take p ++ rep ++ t.drop (p + klen) := by
  rw [rebuild, rebuild]
  simp

/-- A slang map none of whose keys occurs whole-word in the text leaves
the text unchanged (the sequential fold never fires). -/
theorem detect_noop_of_no_match (sm : List (List Char × List Char)) :
    ∀ (text : List Char), (∀ kv ∈ sm, hasWholeWordCS kv.1 (lowerL text) = false) →
      detect_and_map_slang sm text = text := by
  induction sm with
  | nil => intro text _; rfl
  | cons kv sm ih =>
    intro text h
    have h0 := h kv (List.mem_cons_self _ _)
    have hstep : detect_and_map_slang (kv :: sm) text = detect_and_map_slang sm text := by
      simp [detect_and_map_slang, h0]
    rw [hstep]
    exact ih text (fun kv' hkv' => h kv' (List.mem_cons_of_mem _ hkv'))

/-- Under a singleton mapping whose key is in stored (lower-case) form,
a key with exactly one whole-word case-insensitive match position is
rewritten in place there as `"<token> (<meaning>)"`, with the text
before and after the occurrence preserved.  Keys containing spaces and
texts with further embedded (non-whole-word) occurrences of the key are
covered: only the match positions matter. -/
theorem detect_single_rewrite (k m t : List Char) (n : Nat)
    (hklow : lowerL k = k)
    (hpos : matchPositionsCI t k = [n]) :
    detect_and_map_slang [(k, m)] t
      = t.take n ++ (k ++ ((" (").toList ++ (m ++ ((")").toList ++ t.drop (n + k.length))))) := by
  have hmem : n ∈ matchPositionsCI t k := by
    rw [hpos]
    simp
  rcases List.mem_filter.mp hmem with ⟨hrange, hmatch⟩
  rw [matchAtCI] at hmatch
  simp only [Bool.and_eq_true] at hmatch
  obtain ⟨⟨hbeq, hb1⟩, hb2⟩ := hmatch
  have hsliceL : lowerL (sliceAt t n k.length) = k := by
    have h := eq_of_beq hbeq
    rw [h, hklow]
  have hsearch : hasWholeWordCS k (lowerL t) = true := by
    rw [hasWholeWordCS, List.any_eq_true]
    refine ⟨n, ?_, ?_⟩
    · rw [List.mem_range, lowerL, List.length_map]
      exact List.mem_range.mp hrange
    · rw [matchAtCS]
      have hsl : sliceAt (lowerL t) n k.length = lowerL (sliceAt t n k.length) := by
        simp [sliceAt, lowerL, List.map_take, List.map_drop]
      rw [hsl, hsliceL, boundaryAt_lowerL, boundaryAt_lowerL, hb1, hb2]
      simp
  have hstep : detect_and_map_slang [(k, m)] t
      = subWholeWordCI k (k ++ ((" (").toList ++ (m ++ (")").toList))) t := by
    simp only [detect_and_map_slang, List.foldl_cons, List.foldl_nil, hsearch, if_true]
    simp [List.append_assoc]
  rw [hstep, subWholeWordCI, hpos, pickDisjoint_singleton, rebuild_singleton]
  simp [List.append_assoc]

/-- C3 amended: slang resolution is a sequential, order-dependent
rewrite over the evolving text.  A text in which no mapping key has a
whole-word match (in particular one where keys occur only embedded in
larger words) is returned unchanged; and under a singleton mapping
whose key is in stored lower-case form (as `load_slang_dataset` saves
every key), a key with exactly one whole-word case-insensitive match
position is rewritten in place there as `"<token> (<meaning>)"`, the
surrounding text preserved — including keys containing spaces and texts
where the key also occurs embedded inside larger words.  The original
claim's universal per-key guarantee fails for multi-entry maps (see the
counterexample). -/
theorem detect_and_map_slang_amended :
    (∀ (sm : List (List Char × List Char)) (text : List Char),
       (∀ kv ∈ sm, hasWholeWordCS kv.1 (lowerL text) = false) →
       detect_and_map_slang sm text = text)
    ∧ (∀ (k m t : List Char) (n : Nat), lowerL k = k →
       matchPositionsCI t k = [n] →
       detect_and_map_slang [(k, m)] t
         = t.take n ++ (k ++ ((" (").toList ++ (m ++ ((")").toList ++ t.drop (n + k.length)))))) :=
  ⟨detect_noop_of_no_match, detect_single_rewrite⟩

theorem detect_and_map_slang_amended_witness :
    detect_and_map_slang [(("fire").toList, ("flames").toList)] (("my firewall").toList)
      = ("my firewall").toList
    ∧ detect_and_map_slang [(("fire truck").toList, ("vehicle").toList)]
        (("a fire truck here").toList)
      = (("a fire truck here").toList).take 2 ++ ((("fire truck").toList)
          ++ (((" (").toList) ++ ((("vehicle").toList)
          ++ (((")").toList)
            ++ (("a fire truck here").toList).drop (2 + (("fire truck").toList).length)))))
    ∧ detect_and_map_slang [(("fire").toList, ("flames").toList)] (("fire vs firewall").toList)
      = (("fire vs firewall").toList).take 0 ++ ((("fire").toList)
          ++ (((" (").toList) ++ ((("flames").toList)
          ++ (((")").toList)
            ++ (("fire vs firewall").toList).drop (0 + (("fire").toList).length))))) := by
  refine ⟨?_, ?_, ?_⟩
  · exact detect_and_map_slang_amended.1 _ _ (by decide)
  · exact detect_and_map_slang_amended.2 (("fire truck").toList) (("vehicle").toList)
      (("a fire truck here").toList) 2 (by decide) (by decide)
  · exact detect_and_map_slang_amended.2 (("fire").toList) (("flames").toList)
      (("fire vs firewall").toList) 0 (by decide) (by decide)

/-- C3 counterexample: with the mapping `fire → flames, fire truck →
vehicle` (in insertion order) the input `"fire truck"` contains the key
`"fire truck"` as a whole-word, boundary-delimited occurrence (match at
position 0, boundaries at 0 and 10), yet the output rewrites only
`"fire"` and never inserts `"(vehicle)"`: sequential substitution broke
the later key's occurrence, refuting the claim that every whole-word
key occurrence is rewritten. -/
theorem detect_and_map_slang_sequential_cex :
    detect_and_map_slang
      [(("fire").toList, ("flames").toList), (("fire truck").toList, ("vehicle").toList)]
      (("fire truck").toList) = ("fire (flames) truck").toList
    ∧ matchAtCS (("fire truck").toList) (("fire truck").toList) 0 = true
    ∧ hasSub (("(vehicle)").toList) (("fire (flames) truck").toList) = false :=
  ⟨by decide, by decide, by decide⟩
